import Mathlib


set_option maxRecDepth 100000
set_option maxHeartbeats 1000000


/-!
Shallow embedding of the county election-data pipeline
(scripts `clean_standardize.py`, `data_integration.py`,
`temporal_matching.py`, `add_usda_codes.py`).

Tables are lists of records; a pandas null (NaN) cell is `Option.none`.
Numeric cells are rationals (the scripts' float arithmetic at the scale
exercised here is exact decimal arithmetic; IEEE `inf`/`nan` produced by
division are modeled explicitly by the type `F` below).
Console output relevant to the claims (the per-row itemization lines of
the quality checks) is modeled as an explicit log component; headers and
summary prints are not modeled.
-/

/-! ## Definitions -/

/-- Predicate used by `str.strip`: whitespace characters. -/
def isWs (c : Char) : Bool := c.isWhitespace

/-- Remove leading elements satisfying `p` (left part of `str.strip`). -/
def trimLeftP (p : Char → Bool) (l : List Char) : List Char := l.dropWhile p

/-- Remove trailing elements satisfying `p` (right part of `str.strip`). -/
def trimRightP (p : Char → Bool) (l : List Char) : List Char :=
  ((l.reverse).dropWhile p).reverse

/-- Model of Python `str.strip()` on the character list: drop leading and
trailing whitespace. -/
def stripChars (l : List Char) : List Char := trimRightP isWs (trimLeftP isWs l)

/-- Model of Python `str.strip()`. -/
def pyStrip (s : String) : String := ⟨stripChars s.data⟩

/-- Model of Python `str.strip(q)` for a single character argument `q`
(used on `GeoFIPS` with a quote character): drop leading and trailing
occurrences of `q`. -/
def pyStripChar (q : Char) (s : String) : String :=
  ⟨trimRightP (fun c => c == q) (trimLeftP (fun c => c == q) s.data)⟩

/-- Case-insensitive substring test on character lists, modeling
`Series.str.contains(pat, case=False)` for a plain (non-regex) pattern. -/
def containsChars (pat : List Char) : List Char → Bool
  | [] => pat.isEmpty
  | c :: t => pat.isPrefixOf (c :: t) || containsChars pat t

/-- Lower-casing of one ASCII character (the case-folding relevant to
the patterns used by the scripts). -/
def lowerChar (c : Char) : Char :=
  if 'A' ≤ c ∧ c ≤ 'Z' then Char.ofNat (c.toNat + 32) else c

/-- Case-insensitive substring test on strings. -/
def containsCI (hay pat : String) : Bool :=
  containsChars (pat.data.map lowerChar) (hay.data.map lowerChar)

/-- Digit characters of `n`, most significant first; `fuel` bounds the
recursion depth and is sufficient whenever `n < 10 ^ fuel`. -/
def natDigitsAux : Nat → Nat → List Char
  | 0, _ => []
  | fuel + 1, n =>
    if n < 10 then [Nat.digitChar n]
    else natDigitsAux fuel (n / 10) ++ [Nat.digitChar (n % 10)]

/-- Decimal string of a natural number (model of Python rendering of an
int in an f-string). -/
def natStr (n : Nat) : String := ⟨natDigitsAux (n + 1) n⟩

/-- Alias table `name_fixes` of `standardize_county_names`. -/
def name_fixes : List (String × String) :=
  [("St. Johns", "St. Johns"),
   ("Saint Johns", "St. Johns"),
   ("St Johns", "St. Johns"),
   ("St. Lucie", "St. Lucie"),
   ("Saint Lucie", "St. Lucie"),
   ("St Lucie", "St. Lucie"),
   ("Miami-Dade", "Miami-Dade"),
   ("Dade", "Miami-Dade"),
   ("Miami Dade", "Miami-Dade"),
   ("DeSoto", "Desoto"),
   ("De Soto", "Desoto")]

/-- Exact-value replacement through the alias table, modeling
`Series.replace(name_fixes)` on one cell. -/
def applyFixes (s : String) : String := (name_fixes.lookup s).getD s

/-- Per-value county-name normalization of `standardize_county_names`
(`clean_standardize.py`, lines 64-67): strip surrounding whitespace, then
apply the alias table. -/
def normalizeCounty (s : String) : String := applyFixes (pyStrip s)

inductive F where
  | nan : F
  | inf : F
  | ninf : F
  | num (q : ℚ) : F
deriving DecidableEq, Repr

/-- View of a stored numeric cell as a float. -/
def toF : Option ℚ → F
  | none => .nan
  | some q => .num q

/-- Float division, modeling IEEE semantics for the cases that matter
(NaN propagation, division of a finite value by zero). -/
def fdiv : F → F → F
  | .nan, _ => .nan
  | _, .nan => .nan
  | .inf, .inf => .nan
  | .inf, .ninf => .nan
  | .ninf, .inf => .nan
  | .ninf, .ninf => .nan
  | .inf, .num b => if b < 0 then .ninf else .inf
  | .ninf, .num b => if b < 0 then .inf else .ninf
  | .num _, .inf => .num 0
  | .num _, .ninf => .num 0
  | .num a, .num b =>
    if b = 0 then (if a = 0 then .nan else if 0 < a then .inf else .ninf)
    else .num (a / b)

/-- Multiplication by the constant 100. -/
def fmul100 : F → F
  | .nan => .nan
  | .inf => .inf
  | .ninf => .ninf
  | .num q => .num (q * 100)

/-- Floor of a rational, written with explicit integer floor-division so
that it evaluates inside the kernel. -/
def floorQ (q : ℚ) : ℤ := Int.fdiv q.num q.den

/-- Absolute value of a rational, written explicitly so that it
evaluates inside the kernel. -/
def absQ (q : ℚ) : ℚ := if q < 0 then -q else q

/-- Rounding to the nearest integer, ties to even (the rounding used by
`numpy.round`). -/
def roundHalfEven (q : ℚ) : ℤ :=
  if q - floorQ q < 1/2 then floorQ q
  else if 1/2 < q - floorQ q then floorQ q + 1
  else if floorQ q % 2 = 0 then floorQ q else floorQ q + 1

/-- Rounding a rational to one decimal place, ties to even (model of
`Series.round(1)` on a finite value). -/
def round1 (q : ℚ) : ℚ := (roundHalfEven (q * 10) : ℚ) / 10

/-- Model of `Series.round(1)` on floats. -/
def round1F : F → F
  | .num q => .num (round1 q)
  | x => x

/-- Float subtraction. -/
def fsub : F → F → F
  | .nan, _ => .nan
  | _, .nan => .nan
  | .inf, .inf => .nan
  | .inf, _ => .inf
  | .ninf, .ninf => .nan
  | .ninf, _ => .ninf
  | .num _, .inf => .ninf
  | .num _, .ninf => .inf
  | .num a, .num b => .num (a - b)

/-- Float absolute value. -/
def fabs : F → F
  | .nan => .nan
  | .inf => .inf
  | .ninf => .inf
  | .num q => .num (absQ q)

/-- Float greater-than against a rational constant; false on NaN. -/
def fgtC : F → ℚ → Bool
  | .nan, _ => false
  | .inf, _ => true
  | .ninf, _ => false
  | .num q, c => decide (c < q)

/-- Comparison `column < c` on a stored cell; false on null (NaN). -/
def ltCell (o : Option ℚ) (c : ℚ) : Bool :=
  match o with
  | none => false
  | some q => decide (q < c)

/-- Comparison `column > c` on a stored cell; false on null (NaN). -/
def gtCell (o : Option ℚ) (c : ℚ) : Bool :=
  match o with
  | none => false
  | some q => decide (c < q)

/-- Row of the combined-election input table
(`All_Elections_Combined_2016_2024.csv`). -/
structure RawRow where
  County : Option String
  Year : Option Nat
  Election_Date : Option String
  Registered_Voters : Option ℚ
  Votes_Cast : Option ℚ
  Turnout_Percent : Option ℚ
deriving DecidableEq, Repr

/-- Row after `standardize_county_names` (adds `County_Original`). -/
structure ERow where
  County : Option String
  County_Original : Option String
  Year : Option Nat
  Election_Date : Option String
  Registered_Voters : Option ℚ
  Votes_Cast : Option ℚ
  Turnout_Percent : Option ℚ
deriving DecidableEq, Repr

/-- Row of the FIPS reference table (`florida_fips_codes.csv`): the two
columns used by the merge. -/
structure FRow where
  FIPS : Nat
  County_Name : String
deriving DecidableEq, Repr

/-- Row after `add_fips_codes` (column order of lines 108-113; order is
not tracked by the record model). -/
structure QRow where
  FIPS : Option Nat
  County : Option String
  County_Original : Option String
  Year : Option Nat
  Election_Date : Option String
  Registered_Voters : Option ℚ
  Votes_Cast : Option ℚ
  Turnout_Percent : Option ℚ
deriving DecidableEq, Repr

/-- Embedding of `standardize_county_names` (`clean_standardize.py`,
lines 44-78): keep the original name in `County_Original`, strip and
alias-replace `County`; the string accessor skips nulls. The audit
printing has no effect on the data. -/
def standardize_county_names (df : List RawRow) : List ERow :=
  df.map fun r =>
    { County := r.County.map normalizeCounty
      County_Original := r.County
      Year := r.Year
      Election_Date := r.Election_Date
      Registered_Voters := r.Registered_Voters
      Votes_Cast := r.Votes_Cast
      Turnout_Percent := r.Turnout_Percent }

/-- Result of `add_fips_codes`: when the FIPS reference table is `None`
the election table is returned unchanged (without FIPS columns),
otherwise the merged table is returned. -/
inductive FipsOutcome where
  | withoutFips (rows : List ERow) : FipsOutcome
  | withFips (rows : List QRow) : FipsOutcome
deriving DecidableEq, Repr

/-- Build one merged row from an election row and a resolved key. -/
def mkQRow (e : ERow) (f : Option Nat) : QRow :=
  { FIPS := f
    County := e.County
    County_Original := e.County_Original
    Year := e.Year
    Election_Date := e.Election_Date
    Registered_Voters := e.Registered_Voters
    Votes_Cast := e.Votes_Cast
    Turnout_Percent := e.Turnout_Percent }

/-- Left merge of `clean_standardize.py` lines 88-93: join on
`County = County_Name` with `how='left'`; an unmatched row is kept with a
null FIPS, a row with several matches is repeated once per match. The
`County_Name` column is dropped afterwards (line 105), so it is not part
of `QRow`. -/
def mergeFips (es : List ERow) (fs : List FRow) : List QRow :=
  es.flatMap fun e =>
    match fs.filter (fun f => e.County == some f.County_Name) with
    | [] => [mkQRow e none]
    | ms => ms.map fun f => mkQRow e (some f.FIPS)

/-- Embedding of `add_fips_codes` (`clean_standardize.py`, lines 81-115). -/
def add_fips_codes (es : List ERow) (fips : Option (List FRow)) : FipsOutcome :=
  match fips with
  | none => .withoutFips es
  | some fs => .withFips (mergeFips es fs)

/-- Null test of each column of the merged table, in column order. -/
def qColumns : List (String × (QRow → Bool)) :=
  [("FIPS", fun r => r.FIPS.isNone),
   ("County", fun r => r.County.isNone),
   ("County_Original", fun r => r.County_Original.isNone),
   ("Year", fun r => r.Year.isNone),
   ("Election_Date", fun r => r.Election_Date.isNone),
   ("Registered_Voters", fun r => r.Registered_Voters.isNone),
   ("Votes_Cast", fun r => r.Votes_Cast.isNone),
   ("Turnout_Percent", fun r => r.Turnout_Percent.isNone)]

/-- Missing-values check (lines 122-127): one issue per column with a
positive null count. -/
def missingIssues (df : List QRow) : List String :=
  qColumns.filterMap fun nc =>
    if 0 < df.countP nc.2 then
      some ("Missing values in " ++ nc.1 ++ ": " ++ natStr (df.countP nc.2))
    else none

/-- Cardinality issue string of line 136. -/
def cardMsg (y c : Nat) : String :=
  "Year " ++ natStr y ++ " has " ++ natStr c ++ " counties instead of 67"

/-- Insertion into an ascending list. -/
def insertAsc (y : Nat) : List Nat → List Nat
  | [] => [y]
  | x :: t => if y ≤ x then y :: x :: t else x :: insertAsc y t

/-- Ascending insertion sort. -/
def sortAsc (l : List Nat) : List Nat := l.foldr insertAsc []

/-- Distinct years of the table in ascending order (`groupby('Year')`
drops null keys and sorts the remaining ones). -/
def sortedYears (df : List QRow) : List Nat :=
  sortAsc ((df.filterMap (·.Year)).dedup)

/-- Distinct non-null county count of one year group
(`groupby('Year')['County'].nunique()`). -/
def nuniqueCounty (df : List QRow) (y : Nat) : Nat :=
  (((df.filter (fun r => r.Year == some y)).filterMap (·.County)).dedup).length

/-- Cardinality check (lines 129-136): one issue per year whose distinct
county count differs from 67. -/
def cardIssues (df : List QRow) : List String :=
  (sortedYears df).filterMap fun y =>
    if nuniqueCounty df y ≠ 67 then some (cardMsg y (nuniqueCounty df y))
    else none

/-- Row selection `df[df['Turnout_Percent'] < 30]` (line 140). -/
def low_turnout (df : List QRow) : List QRow :=
  df.filter fun r => ltCell r.Turnout_Percent 30

/-- Row selection `df[df['Turnout_Percent'] > 95]` (line 141). -/
def high_turnout (df : List QRow) : List QRow :=
  df.filter fun r => gtCell r.Turnout_Percent 95

/-- Rendering of a null string cell in an f-string. -/
def fmtOptStr (o : Option String) : String := o.getD "nan"

/-- Rendering of an integer cell in an f-string (rendering of a null or
of the float dtype a null column takes is not exercised by the claims). -/
def fmtOptNat : Option Nat → String
  | none => "nan"
  | some n => natStr n

/-- Model of Python fixed-point formatting of a finite float with one
decimal (`:.1f`). -/
def fmt1 (q : ℚ) : String :=
  let n := roundHalfEven (q * 10)
  if n < 0 then "-" ++ natStr ((-n).toNat / 10) ++ "." ++ natStr ((-n).toNat % 10)
  else natStr (n.toNat / 10) ++ "." ++ natStr (n.toNat % 10)

/-- Model of `:.1f` on a float value. -/
def fmtF1 : F → String
  | .nan => "nan"
  | .inf => "inf"
  | .ninf => "-inf"
  | .num q => fmt1 q

/-- Low-turnout issue string (line 147). -/
def lowMsg (r : QRow) : String :=
  "Low turnout: " ++ fmtOptStr r.County ++ " " ++ fmtOptNat r.Year ++ " = "
    ++ fmtF1 (toF r.Turnout_Percent) ++ "%"

/-- Low-turnout report line (line 146). -/
def lowLine (r : QRow) : String :=
  "      " ++ fmtOptStr r.County ++ " " ++ fmtOptNat r.Year ++ ": "
    ++ fmtF1 (toF r.Turnout_Percent) ++ "%"

/-- High-turnout report line (line 152); note that no issue string exists
for high turnout. -/
def highLine (r : QRow) : String :=
  "\t\t" ++ fmtOptStr r.County ++ " " ++ fmtOptNat r.Year ++ ": "
    ++ fmtF1 (toF r.Turnout_Percent) ++ "%"

/-- Row extended with the helper columns `Calculated_Turnout` and
`Turnout_Difference` of lines 156-157. -/
structure QRowExt where
  toQRow : QRow
  Calculated_Turnout : F
  Turnout_Difference : F
deriving DecidableEq, Repr

/-- Helper column `Calculated_Turnout` of line 156. -/
def calcTurnout (r : QRow) : F :=
  round1F (fmul100 (fdiv (toF r.Votes_Cast) (toF r.Registered_Voters)))

/-- Add the two helper columns to a row (lines 156-157). -/
def extendRow (r : QRow) : QRowExt :=
  { toQRow := r
    Calculated_Turnout := calcTurnout r
    Turnout_Difference := fabs (fsub (calcTurnout r) (toF r.Turnout_Percent)) }

/-- Row selection `df[df['Turnout_Difference'] > 0.5]` (line 159). -/
def mismatches (df : List QRow) : List QRowExt :=
  (df.map extendRow).filter fun e => fgtC e.Turnout_Difference (1/2)

/-- Recomputation-mismatch report line (line 163); only the first five
mismatch rows are itemized (`.head(5)`), and no issue string exists for a
mismatch. -/
def mismatchLine (e : QRowExt) : String :=
  "\t\t" ++ fmtOptStr e.toQRow.County ++ " " ++ fmtOptNat e.toQRow.Year
    ++ ": Reported=" ++ fmtF1 (toF e.toQRow.Turnout_Percent)
    ++ "%, Calculated=" ++ fmtF1 e.Calculated_Turnout ++ "%"

/-- Number of rows sharing a row's `(County, Year)` pair (nulls compare
equal, as in `DataFrame.duplicated`). -/
def dupKeyCount (df : List QRow) (r : QRow) : Nat :=
  df.countP fun s => s.County == r.County && s.Year == r.Year

/-- Number of rows marked by `df.duplicated(subset=['County','Year'],
keep=False)` (line 170). -/
def dupCount (df : List QRow) : Nat :=
  df.countP fun r => 1 < dupKeyCount df r

/-- Duplicate check (lines 168-176): a single issue carrying the flagged
row count when any `(County, Year)` pair repeats. -/
def dupIssues (df : List QRow) : List String :=
  if 0 < dupCount df then ["Duplicate records: " ++ natStr (dupCount df)]
  else []

/-- Return value of `quality_checks` plus the per-row itemization lines
it prints (`log`); the code returns the pair `(table, issues)`. -/
structure QCResult where
  table : List QRow
  issues : List String
  log : List String
deriving DecidableEq, Repr

/-- Embedding of `quality_checks` (`clean_standardize.py`, lines
118-186): all checks run unconditionally; the issue list collects, in
order, the missing-value, cardinality, low-turnout and duplicate
findings (the high-turnout and recomputation checks only print); the
helper columns added for the recomputation check are dropped from the
returned table (line 166). -/
def quality_checks (df : List QRow) : QCResult :=
  { table := (df.map extendRow).map (·.toQRow)
    issues := missingIssues df ++ cardIssues df
      ++ (low_turnout df).map lowMsg ++ dupIssues df
    log := (low_turnout df).map lowLine ++ (high_turnout df).map highLine
      ++ ((mismatches df).take 5).map mismatchLine }

/-- Value of a digit list, most significant digit first. -/
def digitsVal (l : List Char) : Nat :=
  l.foldl (fun a c => a * 10 + (c.toNat - 48)) 0

/-- Data-model well-formedness of a row for the recomputation check: the
three numeric fields are present and the registration count is positive
(the spec's data model: non-negative integers, reported turnout in
percent). -/
def wfRow (r : QRow) : Bool :=
  (match r.Registered_Voters with
   | some rv => decide (0 < rv)
   | none => false)
  && r.Votes_Cast.isSome && r.Turnout_Percent.isSome

/-- Recomputation-check predicate, written from the spec's words: the
recomputed turnout `votes_cast / registered_voters * 100`, rounded to
one decimal, differs from the reported `turnout_percent` by more than an
absolute tolerance of 0.5. -/
def mismatchSpec (r : QRow) : Bool :=
  match r.Registered_Voters, r.Votes_Cast, r.Turnout_Percent with
  | some rv, some vc, some tp =>
    decide ((1 : ℚ)/2 < absQ (round1 (vc / rv * 100) - tp))
  | _, _, _ => false

/-- Fully populated election row for concrete tables. -/
def mkCountyRow (name : String) (fips y : Nat) (rv vc tp : ℚ) : QRow :=
  { FIPS := some fips
    County := some name
    County_Original := some name
    Year := some y
    Election_Date := some "11/03/2020"
    Registered_Voters := some rv
    Votes_Cast := some vc
    Turnout_Percent := some tp }

/-- Row with reported turnout 96 (above 95) and internally consistent
counts. -/
def highRow96 : QRow := mkCountyRow "Z0" 12000 2020 1000 960 96

/-- Row whose reported turnout 75 disagrees with the recomputed turnout
70 by 5 percentage points. -/
def badRow75 : QRow := mkCountyRow "Z0" 12000 2020 1000 700 75

/-- Sixty-six distinct, internally consistent county rows for year
2020. -/
def okRows66 : List QRow :=
  (List.range 66).map fun i =>
    mkCountyRow ("C" ++ natStr i) (12001 + i) 2020 1000 700 70

/-- Table with 67 distinct counties in year 2020, all fields populated,
one row with turnout above 95. -/
def tblC1 : List QRow := highRow96 :: okRows66

/-- Table with 67 distinct counties in year 2020, all fields populated,
one row with a turnout-recomputation mismatch of 5 points. -/
def tblC2 : List QRow := badRow75 :: okRows66

/-- Table with only 66 distinct counties in year 2020 and no other
anomaly. -/
def tblC6 : List QRow := okRows66

/-- Concrete one-row raw election table. -/
def rawSample : List RawRow :=
  [{ County := some "Alachua"
     Year := some 2020
     Election_Date := some "11/03/2020"
     Registered_Voters := some 1000
     Votes_Cast := some 700
     Turnout_Percent := some 70 }]

/-- Concrete election row for the C8 witness. -/
def eAlachua : ERow :=
  { County := some "Alachua"
    County_Original := some "Alachua "
    Year := some 2020
    Election_Date := some "11/03/2020"
    Registered_Voters := some 1000
    Votes_Cast := some 700
    Turnout_Percent := some 70 }

/-- Concrete FIPS reference table for the C8 witness. -/
def fsSample : List FRow := [{ FIPS := 12001, County_Name := "Alachua" }]

/-- Embedding of `categorize` (`add_usda_codes.py`, lines 113-123, and
identically `temporal_matching.py`, lines 226-232): a null code yields a
null category, codes 1-3 are Metropolitan, 4-7 are Micropolitan/Small
Urban, and every other non-null code falls into the final `else` branch
and is Rural. -/
def categorize (code : Option ℚ) : Option String :=
  match code with
  | none => none
  | some c =>
    if c = 1 ∨ c = 2 ∨ c = 3 then some "Metropolitan"
    else if c = 4 ∨ c = 5 ∨ c = 6 ∨ c = 7 then some "Micropolitan/Small Urban"
    else some "Rural"

/-- Pandas `merge(..., how='left')` on a key predicate: every left row
is kept; an unmatched left row gets a null right part; a left row with
several matches is repeated once per match, in order. -/
def leftMerge {α β : Type} (left : List α) (right : List β)
    (keyEq : α → β → Bool) : List (α × Option β) :=
  left.flatMap fun a =>
    match right.filter (keyEq a) with
    | [] => [(a, none)]
    | ms => ms.map fun b => (a, some b)

/-- Row of the combined Census enrichment table (`census_combined`):
integer FIPS key plus the four derived variables. -/
structure CRow where
  FIPS : Nat
  Median_Household_Income : Option ℚ
  Total_Population : Option ℚ
  Pct_Bachelors_Plus : Option ℚ
  Median_Age : Option ℚ
deriving DecidableEq, Repr

/-- Row of the combined BEA enrichment table (`bea_combined`). -/
structure BRow where
  FIPS : Nat
  Per_Capita_Income : Option ℚ
  GDP_Millions : Option ℚ
  Total_Employment : Option ℚ
deriving DecidableEq, Repr

/-- First merge of `integrate_all_data` (lines 260-261): skipped when
the Census table is `None` (modeled by attaching no payload), otherwise
a left join on `FIPS`. -/
def mergeCensus (elections : List QRow) (census : Option (List CRow)) :
    List (QRow × Option CRow) :=
  match census with
  | none => elections.map fun r => (r, none)
  | some c => leftMerge elections c fun r cr => r.FIPS == some cr.FIPS

/-- Second merge of `integrate_all_data` (lines 264-265). -/
def mergeBEA (i1 : List (QRow × Option CRow)) (bea : Option (List BRow)) :
    List ((QRow × Option CRow) × Option BRow) :=
  match bea with
  | none => i1.map fun p => (p, none)
  | some b => leftMerge i1 b fun p br => p.1.FIPS == some br.FIPS

/-- Embedding of `integrate_all_data` (`data_integration.py`, lines
254-272): the election table left-joined sequentially with the optional
Census and BEA enrichment tables on `FIPS`. -/
def integrate_all_data (elections : List QRow) (census : Option (List CRow))
    (bea : Option (List BRow)) : List ((QRow × Option CRow) × Option BRow) :=
  mergeBEA (mergeCensus elections census) bea

/-- Concrete rows for the C5 witness. -/
def qW : QRow := mkCountyRow "Alachua" 12001 2020 1000 700 70

/-- Concrete Census row for the C5 witness. -/
def cW : CRow :=
  { FIPS := 12001
    Median_Household_Income := some 50000
    Total_Population := some 270000
    Pct_Bachelors_Plus := some 40
    Median_Age := some 31 }

/-- Concrete BEA row for the C5 witness. -/
def bW : BRow :=
  { FIPS := 12001
    Per_Capita_Income := some 48000
    GDP_Millions := some 14000
    Total_Employment := some 150000 }

/-- Cell value of a raw CSV-loaded table: a parsed number, unparsed
text, or null. `pd.to_numeric(errors='coerce')` maps text and null to a
missing value. -/
inductive Val where
  | vnum (q : ℚ) : Val
  | vstr (s : String) : Val
  | vnull : Val
deriving DecidableEq, Repr

/-- Model of `pd.to_numeric(..., errors='coerce')` on one cell. -/
def toNumeric : Val → Option ℚ
  | .vnum q => some q
  | .vstr _ => none
  | .vnull => none

/-- Row of a BEA source table: geography code, line description, and the
per-year-column cells. -/
structure SrcRow where
  GeoFIPS : String
  Description : String
  cells : List (String × Val)
deriving DecidableEq, Repr

/-- BEA source table: column list (checked by `bea_year in df.columns`)
and rows. -/
structure SrcTable where
  cols : List String
  rows : List SrcRow
deriving DecidableEq, Repr

/-- Geography-code cleaning of line 67:
`GeoFIPS.str.strip().str.strip('"').str.strip()`. -/
def cleanGeo (s : String) : String := pyStrip (pyStripChar '"' (pyStrip s))

/-- Geography filter of lines 68-70: cleaned code of length 5, starting
with the state prefix 12, and not the state aggregate 12000. -/
def geoOK (r : SrcRow) : Bool :=
  ((cleanGeo r.GeoFIPS).data.length == 5)
    && "12".data.isPrefixOf (cleanGeo r.GeoFIPS).data
    && !(cleanGeo r.GeoFIPS == "12000")

/-- Model of `astype(int)` on a digit string: some value when every
character is a digit, none (an exception in the source) otherwise. -/
def parseNatChars (l : List Char) : Option Nat :=
  match l with
  | [] => none
  | _ =>
    if l.all Char.isDigit then
      some (l.foldl (fun a c => a * 10 + (c.toNat - 48)) 0)
    else none

/-- One source-processing block of `process_bea_temporal` (lines 62-87
for income with pattern "Per capita personal income"; lines 89-115 for
GDP with pattern "All industry total"): clean and filter the geography
codes, convert them to integer keys (an exception anywhere in the block
yields `None`), keep the rows whose stripped description contains the
pattern case-insensitively, and extract the mapped year column if the
table has it, else `None`. -/
def processSource (descPat beaYear : String) (t : SrcTable) :
    Option (List (Nat × Option ℚ)) :=
  if (t.rows.filter geoOK).all
      (fun r => (parseNatChars (cleanGeo r.GeoFIPS).data).isSome) then
    if t.cols.contains beaYear then
      some ((((t.rows.filter geoOK).filter fun r =>
          containsCI (pyStrip r.Description) descPat).map fun r =>
        ((parseNatChars (cleanGeo r.GeoFIPS).data).getD 0,
          toNumeric ((r.cells.lookup beaYear).getD Val.vnull))))
    else none
  else none

/-- Row of the temporally matched output: election fields plus the two
year-specific BEA variables (a missing source contributes nulls through
the final concat). -/
structure TRow where
  base : QRow
  Per_Capita_Income : Option ℚ
  GDP_Millions : Option ℚ
deriving DecidableEq, Repr

/-- The year mapping of lines 45-51: election year to BEA column
label. -/
def yearMapping : List (Nat × String) :=
  [(2016, "2016"), (2018, "2018"), (2020, "2020"), (2022, "2022"),
   (2024, "2023")]

/-- Merge of line 119-120: left join of the year's elections with the
extracted income values on FIPS; when the source was unavailable the
column is absent and the final concat fills nulls. -/
def mergeIncomeStep (ye : List QRow) (inc : Option (List (Nat × Option ℚ))) :
    List (QRow × Option ℚ) :=
  match inc with
  | none => ye.map fun e => (e, none)
  | some irows =>
    (leftMerge ye irows fun e iv => e.FIPS == some iv.1).map
      fun p => (p.1, match p.2 with | none => none | some iv => iv.2)

/-- Merge of lines 121-122 for the GDP values. -/
def mergeGdpStep (wi : List (QRow × Option ℚ))
    (g : Option (List (Nat × Option ℚ))) : List TRow :=
  match g with
  | none => wi.map fun p => ⟨p.1, p.2, none⟩
  | some grows =>
    (leftMerge wi grows fun p iv => p.1.FIPS == some iv.1).map
      fun q => ⟨q.1.1, q.1.2,
        match q.2 with | none => none | some iv => iv.2⟩

/-- Embedding of `process_bea_temporal` (`temporal_matching.py`, lines
40-131): for each (election year, BEA year label) pair of the year
mapping, take the elections of that year, process the income and GDP
sources for the mapped label, left-join them on FIPS, and concatenate
all the year chunks. -/
def process_bea_temporal (elections : List QRow) (tInc tGdp : SrcTable) :
    List TRow :=
  yearMapping.flatMap fun p =>
    mergeGdpStep
      (mergeIncomeStep (elections.filter fun e => e.Year == some p.1)
        (processSource "Per capita personal income" p.2 tInc))
      (processSource "All industry total" p.2 tGdp)

/-- Wide-form source table with one county row (geography code 12001,
identified by the per-capita-income description) carrying year columns
2022 and 2023 with the given cell values. -/
def tIncC9 (v22 v23 : Val) : SrcTable :=
  { cols := ["GeoFIPS", "Description", "2022", "2023"]
    rows := [{ GeoFIPS := " \"12001\" "
               Description := " Per capita personal income (dollars) 2/"
               cells := [("2022", v22), ("2023", v23)] }] }

/-- Empty GDP source table with no year columns. -/
def tGdpC9 : SrcTable := { cols := ["GeoFIPS", "Description"], rows := [] }

/-- Concrete 2024 election row keyed 12001 for the C9 witness. -/
def qW2024 : QRow := mkCountyRow "Alachua" 12001 2024 1000 700 70

/-! ## Theorems -/

theorem dropWhile_head_not (p : Char → Bool) (l : List Char) :
    ∀ c, (l.dropWhile p).head? = some c → p c = false := by
  intro c hc
  have h := List.head?_dropWhile_not p l
  rw [hc] at h
  exact h

theorem dropWhile_eq_self_of_head (p : Char → Bool) (l : List Char)
    (h : ∀ c, l.head? = some c → p c = false) : l.dropWhile p = l := by
  cases l with
  | nil => rfl
  | cons a t =>
    have := h a rfl
    simp [List.dropWhile, this]

theorem dropWhile_idem (p : Char → Bool) (l : List Char) :
    (l.dropWhile p).dropWhile p = l.dropWhile p :=
  dropWhile_eq_self_of_head p _ (dropWhile_head_not p l)

theorem trimLeftP_idem (p : Char → Bool) (l : List Char) :
    trimLeftP p (trimLeftP p l) = trimLeftP p l := dropWhile_idem p l

theorem trimRightP_idem (p : Char → Bool) (l : List Char) :
    trimRightP p (trimRightP p l) = trimRightP p l := by
  unfold trimRightP
  rw [List.reverse_reverse, dropWhile_idem]

theorem trimRightP_prefix_self (p : Char → Bool) (l : List Char) :
    trimRightP p l <+: l := by
  unfold trimRightP
  have h := List.dropWhile_suffix (l := l.reverse) p
  obtain ⟨t, ht⟩ := h
  exact ⟨t.reverse, by rw [← List.reverse_append, ht, List.reverse_reverse]⟩

theorem trimLeftP_of_prefix (p : Char → Bool) {l m : List Char}
    (hpre : m <+: l) (hl : l.dropWhile p = l) : m.dropWhile p = m := by
  apply dropWhile_eq_self_of_head
  intro c hc
  cases m with
  | nil => simp at hc
  | cons a t =>
    have hca : a = c := by
      simp [List.head?] at hc
      exact hc
    subst hca
    obtain ⟨u, hu⟩ := hpre
    have hhead : (l.dropWhile p).head? = some a := by
      rw [hl, ← hu]; rfl
    exact dropWhile_head_not p l a hhead

/-- Stripping is idempotent. -/
theorem stripChars_idem (l : List Char) :
    stripChars (stripChars l) = stripChars l := by
  unfold stripChars
  have h1 : trimLeftP isWs (trimRightP isWs (trimLeftP isWs l))
      = trimRightP isWs (trimLeftP isWs l) := by
    apply trimLeftP_of_prefix isWs (trimRightP_prefix_self isWs _)
    exact trimLeftP_idem isWs l
  rw [h1, trimRightP_idem]

theorem pyStrip_idem (s : String) : pyStrip (pyStrip s) = pyStrip s := by
  unfold pyStrip
  exact congrArg String.mk (stripChars_idem s.data)

theorem lookup_mem_snd {α β : Type} [BEq α] (l : List (α × β)) (a : α) (b : β)
    (h : l.lookup a = some b) : b ∈ l.map Prod.snd := by
  induction l with
  | nil => simp [List.lookup] at h
  | cons p t ih =>
    rw [List.lookup] at h
    by_cases hk : (a == p.1) = true
    · rw [hk] at h
      simp at h
      subst h
      simp
    · simp [hk] at h
      simp [ih h]

/-- C7 helper: every value of the alias table is a fixed point of
`normalizeCounty`. -/
theorem fixes_values_fixed :
    ∀ v ∈ name_fixes.map Prod.snd, normalizeCounty v = v := by decide

/-- C7 helper: a string of the form `pyStrip x` that the alias table does
not mention is a fixed point of `normalizeCounty`. -/
theorem normalizeCounty_of_lookup_none (x : String)
    (h : name_fixes.lookup (pyStrip x) = none) :
    normalizeCounty (pyStrip x) = pyStrip x := by
  unfold normalizeCounty applyFixes
  rw [pyStrip_idem, h]
  rfl

/-- C7: county-name normalization (trim, then alias replacement) is
idempotent: normalize (normalize x) = normalize x for every string x. -/
theorem normalizeCounty_idem (x : String) :
    normalizeCounty (normalizeCounty x) = normalizeCounty x := by
  unfold normalizeCounty applyFixes
  cases h : name_fixes.lookup (pyStrip x) with
  | none =>
    simp only [Option.getD_none]
    have := normalizeCounty_of_lookup_none x h
    unfold normalizeCounty applyFixes at this
    exact this
  | some v =>
    simp only [Option.getD_some]
    have hv : v ∈ name_fixes.map Prod.snd := lookup_mem_snd _ _ _ h
    have := fixes_values_fixed v hv
    unfold normalizeCounty applyFixes at this
    exact this

theorem digitChar_toNat (n : Nat) (h : n < 10) :
    (Nat.digitChar n).toNat = 48 + n := by
  interval_cases n <;> rfl

theorem digitsVal_append (l : List Char) (c : Char) :
    digitsVal (l ++ [c]) = digitsVal l * 10 + (c.toNat - 48) := by
  unfold digitsVal
  rw [List.foldl_append]
  rfl

theorem natDigitsAux_val (fuel : Nat) :
    ∀ n, n < 10 ^ fuel → digitsVal (natDigitsAux fuel n) = n := by
  induction fuel with
  | zero =>
    intro n hn
    have : n = 0 := by omega
    subst this
    rfl
  | succ f ih =>
    intro n hn
    by_cases h : n < 10
    · simp only [natDigitsAux, if_pos h]
      show digitsVal [Nat.digitChar n] = n
      unfold digitsVal
      simp [List.foldl, digitChar_toNat n h]
    · simp only [natDigitsAux, if_neg h]
      rw [digitsVal_append]
      have hdiv : n / 10 < 10 ^ f := by
        rw [Nat.div_lt_iff_lt_mul (by norm_num : 0 < 10)]
        calc n < 10 ^ (f + 1) := hn
        _ = 10 ^ f * 10 := by ring
      rw [ih (n / 10) hdiv]
      have hm : n % 10 < 10 := Nat.mod_lt _ (by norm_num)
      rw [digitChar_toNat _ hm]
      omega

theorem natStr_inj {a b : Nat} (h : natStr a = natStr b) : a = b := by
  have hd : natDigitsAux (a + 1) a = natDigitsAux (b + 1) b :=
    congrArg String.data h
  have ha : a < 10 ^ (a + 1) :=
    lt_of_lt_of_le (Nat.lt_pow_self (by norm_num) a)
      (Nat.pow_le_pow_right (by norm_num) (Nat.le_succ a))
  have hb : b < 10 ^ (b + 1) :=
    lt_of_lt_of_le (Nat.lt_pow_self (by norm_num) b)
      (Nat.pow_le_pow_right (by norm_num) (Nat.le_succ b))
  calc a = digitsVal (natDigitsAux (a + 1) a) := (natDigitsAux_val _ a ha).symm
  _ = digitsVal (natDigitsAux (b + 1) b) := by rw [hd]
  _ = b := natDigitsAux_val _ b hb

theorem natDigitsAux_digits (fuel : Nat) :
    ∀ n c, c ∈ natDigitsAux fuel n → 48 ≤ c.toNat ∧ c.toNat ≤ 57 := by
  induction fuel with
  | zero => intro n c hc; simp [natDigitsAux] at hc
  | succ f ih =>
    intro n c hc
    by_cases h : n < 10
    · simp only [natDigitsAux, if_pos h] at hc
      simp at hc
      subst hc
      have := digitChar_toNat n h
      omega
    · simp only [natDigitsAux, if_neg h] at hc
      rw [List.mem_append] at hc
      cases hc with
      | inl hmem => exact ih _ c hmem
      | inr hlast =>
        simp at hlast
        subst hlast
        have hm : n % 10 < 10 := Nat.mod_lt _ (by norm_num)
        have := digitChar_toNat _ hm
        omega

theorem natStr_no_space (n : Nat) : ∀ c ∈ (natStr n).data, c ≠ ' ' := by
  intro c hc
  have := natDigitsAux_digits (n + 1) n c hc
  intro hsp
  subst hsp
  simp at this

/-- Splitting a digit chunk at the first space is unambiguous. -/
theorem digits_space_parse :
    ∀ (d1 : List Char) (d2 r1 r2 : List Char),
      (∀ c ∈ d1, c ≠ ' ') → (∀ c ∈ d2, c ≠ ' ') →
      d1 ++ ' ' :: r1 = d2 ++ ' ' :: r2 → d1 = d2 ∧ r1 = r2 := by
  intro d1
  induction d1 with
  | nil =>
    intro d2 r1 r2 _ h2 heq
    cases d2 with
    | nil =>
      simp at heq
      exact ⟨rfl, heq⟩
    | cons b u =>
      simp at heq
      exact absurd heq.1.symm (h2 b (by simp))
  | cons a t ih =>
    intro d2 r1 r2 h1 h2 heq
    cases d2 with
    | nil =>
      simp at heq
      exact absurd heq.1 (h1 a (by simp))
    | cons b u =>
      simp at heq
      obtain ⟨hab, htail⟩ := heq
      have := ih u r1 r2 (fun c hc => h1 c (by simp [hc]))
        (fun c hc => h2 c (by simp [hc])) htail
      exact ⟨by rw [hab, this.1], this.2⟩

theorem cardMsg_inj_year {y c x d : Nat} (h : cardMsg y c = cardMsg x d) :
    y = x := by
  have hd := congrArg String.data h
  simp only [cardMsg, String.data_append, List.append_assoc] at hd
  have hsplit : (natStr y).data ++ (" has ".data ++ ((natStr c).data
      ++ " counties instead of 67".data))
      = (natStr x).data ++ (" has ".data ++ ((natStr d).data
      ++ " counties instead of 67".data)) :=
    List.append_cancel_left hd
  have hform : ∀ (n m : Nat), (natStr n).data ++ (" has ".data
      ++ ((natStr m).data ++ " counties instead of 67".data))
      = (natStr n).data ++ ' ' :: ("has ".data ++ ((natStr m).data
      ++ " counties instead of 67".data)) := by
    intro n m
    rfl
  rw [hform y c, hform x d] at hsplit
  have := digits_space_parse _ _ _ _ (natStr_no_space y) (natStr_no_space x)
    hsplit
  exact natStr_inj (String.ext this.1)

theorem data_cons_of_append (s t : String) (c : Char) (cs : List Char)
    (h : s.data = c :: cs) : (s ++ t).data = c :: (cs ++ t.data) := by
  rw [String.data_append, h]
  rfl

theorem head_append_left (s t : String) {c : Char}
    (h : ∃ cs, s.data = c :: cs) : ∃ ds, (s ++ t).data = c :: ds := by
  obtain ⟨cs, hcs⟩ := h
  exact ⟨cs ++ t.data, data_cons_of_append s t c cs hcs⟩

theorem ne_of_head_char {s t : String} {a b : Char}
    (hs : ∃ x, s.data = a :: x) (ht : ∃ y, t.data = b :: y)
    (hab : a ≠ b) : s ≠ t := by
  intro he
  obtain ⟨x, hx⟩ := hs
  obtain ⟨y, hy⟩ := ht
  rw [he, hy] at hx
  exact hab (List.cons.injEq .. ▸ hx).1.symm

theorem missing_msg_head (col rest : String) :
    ∃ tail, ("Missing values in " ++ col ++ ": " ++ rest).data = 'M' :: tail :=
  head_append_left _ _ (head_append_left _ _ (head_append_left _ _
    ⟨"issing values in ".data, rfl⟩))

theorem cardMsg_head (y c : Nat) :
    ∃ tail, (cardMsg y c).data = 'Y' :: tail :=
  head_append_left _ _ (head_append_left _ _ (head_append_left _ _
    (head_append_left _ _ ⟨"ear ".data, rfl⟩)))

theorem lowMsg_head (r : QRow) : ∃ tail, (lowMsg r).data = 'L' :: tail :=
  head_append_left _ _ (head_append_left _ _ (head_append_left _ _
    (head_append_left _ _ (head_append_left _ _ (head_append_left _ _
      ⟨"ow turnout: ".data, rfl⟩)))))

theorem dup_msg_head (rest : String) :
    ∃ tail, ("Duplicate records: " ++ rest).data = 'D' :: tail :=
  head_append_left _ _ ⟨"uplicate records: ".data, rfl⟩

theorem mem_insertAsc (a y : Nat) (l : List Nat) :
    a ∈ insertAsc y l ↔ a = y ∨ a ∈ l := by
  induction l with
  | nil => simp [insertAsc]
  | cons x t ih =>
    by_cases h : y ≤ x
    · simp [insertAsc, h]
    · simp [insertAsc, h, ih]
      tauto

theorem insertAsc_nodup (y : Nat) (l : List Nat) (hy : y ∉ l)
    (hl : l.Nodup) : (insertAsc y l).Nodup := by
  induction l with
  | nil => simp [insertAsc]
  | cons x t ih =>
    by_cases h : y ≤ x
    · rw [List.nodup_cons] at hl
      simp only [insertAsc, if_pos h, List.nodup_cons, List.mem_cons]
      refine ⟨fun hc => ?_, hl.1, hl.2⟩
      rcases hc with he | hm
      · exact hy (by simp [he])
      · exact hy (by simp [hm])
    · rw [List.nodup_cons] at hl
      simp [insertAsc, h, List.nodup_cons, mem_insertAsc]
      refine ⟨⟨fun he => hy (by simp [he.symm]), hl.1⟩,
        ih (fun hmem => hy (by simp [hmem])) hl.2⟩

theorem mem_sortAsc (a : Nat) (l : List Nat) : a ∈ sortAsc l ↔ a ∈ l := by
  induction l with
  | nil => simp [sortAsc]
  | cons x t ih =>
    show a ∈ insertAsc x (sortAsc t) ↔ _
    rw [mem_insertAsc, ih]
    simp

theorem sortAsc_nodup (l : List Nat) (h : l.Nodup) : (sortAsc l).Nodup := by
  induction l with
  | nil => simp [sortAsc]
  | cons x t ih =>
    rw [List.nodup_cons] at h
    show (insertAsc x (sortAsc t)).Nodup
    exact insertAsc_nodup x _ (fun hm => h.1 ((mem_sortAsc x t).mp hm)) (ih h.2)

theorem sortedYears_nodup (df : List QRow) : (sortedYears df).Nodup :=
  sortAsc_nodup _ (List.nodup_dedup _)

theorem count_zero_of_all_ne {s : String} {l : List String}
    (h : ∀ x ∈ l, x ≠ s) : l.count s = 0 :=
  List.count_eq_zero.mpr (fun hmem => h s hmem rfl)

theorem count_card_filterMap (n : Nat → Nat) (y : Nat) :
    ∀ ys : List Nat, ys.Nodup → y ∈ ys → n y ≠ 67 →
      (ys.filterMap (fun x => if n x ≠ 67 then some (cardMsg x (n x))
        else none)).count (cardMsg y (n y)) = 1 := by
  intro ys
  induction ys with
  | nil => intro _ hy _; simp at hy
  | cons a t ih =>
    intro hnd hy hbad
    rw [List.nodup_cons] at hnd
    have hcount_t_zero : y ∉ t →
        (t.filterMap (fun x => if n x ≠ 67 then some (cardMsg x (n x))
          else none)).count (cardMsg y (n y)) = 0 := by
      intro hyt
      apply count_zero_of_all_ne
      intro x hx
      rw [List.mem_filterMap] at hx
      obtain ⟨z, hz, hfz⟩ := hx
      by_cases hb : n z ≠ 67
      · rw [if_pos hb] at hfz
        have hxz : x = cardMsg z (n z) := (Option.some.injEq .. ▸ hfz).symm
        subst hxz
        intro he
        exact hyt (cardMsg_inj_year he ▸ hz)
      · rw [if_neg hb] at hfz
        exact absurd hfz (by simp)
    rcases List.mem_cons.mp hy with hya | hyt
    · subst hya
      rw [List.filterMap_cons, if_pos hbad]
      rw [List.count_cons, hcount_t_zero hnd.1]
      simp
    · have hay : a ≠ y := fun he => hnd.1 (he ▸ hyt)
      rw [List.filterMap_cons]
      by_cases hb : n a ≠ 67
      · rw [if_pos hb, List.count_cons]
        rw [ih hnd.2 hyt hbad]
        have : cardMsg a (n a) ≠ cardMsg y (n y) := fun he =>
          hay (cardMsg_inj_year he)
        simp [this]
      · rw [if_neg hb]
        exact ih hnd.2 hyt hbad

theorem missingIssues_ne_card (df : List QRow) (y c : Nat) :
    ∀ x ∈ missingIssues df, x ≠ cardMsg y c := by
  intro x hx
  simp only [missingIssues, List.mem_filterMap] at hx
  obtain ⟨nc, _, hf⟩ := hx
  by_cases hpos : 0 < df.countP nc.2
  · rw [if_pos hpos] at hf
    have hx2 : x = "Missing values in " ++ nc.1 ++ ": "
        ++ natStr (df.countP nc.2) := (Option.some.injEq .. ▸ hf).symm
    subst hx2
    exact ne_of_head_char (missing_msg_head _ _) (cardMsg_head y c) (by decide)
  · rw [if_neg hpos] at hf
    exact absurd hf (by simp)

theorem lowMsgs_ne_card (df : List QRow) (y c : Nat) :
    ∀ x ∈ (low_turnout df).map lowMsg, x ≠ cardMsg y c := by
  intro x hx
  rw [List.mem_map] at hx
  obtain ⟨r, _, hr⟩ := hx
  subst hr
  exact ne_of_head_char (lowMsg_head r) (cardMsg_head y c) (by decide)

theorem dupIssues_ne_card (df : List QRow) (y c : Nat) :
    ∀ x ∈ dupIssues df, x ≠ cardMsg y c := by
  intro x hx
  unfold dupIssues at hx
  by_cases hd : 0 < dupCount df
  · rw [if_pos hd] at hx
    simp at hx
    subst hx
    exact ne_of_head_char (dup_msg_head _) (cardMsg_head y c) (by decide)
  · rw [if_neg hd] at hx
    simp at hx

/-- C6: for every table and every year present in it whose distinct
county count differs from 67, the issue list returned by the quality
validator contains exactly one cardinality issue naming that year and
the actual count. -/
theorem c6_cardinality_issue_unique (df : List QRow) (y : Nat)
    (hy : y ∈ sortedYears df) (hbad : nuniqueCounty df y ≠ 67) :
    ((quality_checks df).issues).count (cardMsg y (nuniqueCounty df y)) = 1 := by
  show (missingIssues df ++ cardIssues df ++ (low_turnout df).map lowMsg
    ++ dupIssues df).count _ = 1
  rw [List.count_append, List.count_append, List.count_append]
  have hm : (missingIssues df).count (cardMsg y (nuniqueCounty df y)) = 0 :=
    count_zero_of_all_ne (missingIssues_ne_card df y _)
  have hl : ((low_turnout df).map lowMsg).count
      (cardMsg y (nuniqueCounty df y)) = 0 :=
    count_zero_of_all_ne (lowMsgs_ne_card df y _)
  have hd : (dupIssues df).count (cardMsg y (nuniqueCounty df y)) = 0 :=
    count_zero_of_all_ne (dupIssues_ne_card df y _)
  have hc : (cardIssues df).count (cardMsg y (nuniqueCounty df y)) = 1 :=
    count_card_filterMap (nuniqueCounty df) y (sortedYears df)
      (sortedYears_nodup df) hy hbad
  rw [hm, hl, hd, hc]

/-- C4: the quality validator is total by construction and returns the
input table (the helper columns added for the recomputation check are
dropped again); on the zero-row table it returns the empty table and the
empty issue list. -/
theorem c4_quality_checks_total (df : List QRow) :
    (quality_checks df).table = df
      ∧ (quality_checks ([] : List QRow)).table = []
      ∧ (quality_checks ([] : List QRow)).issues = [] := by
  refine ⟨?_, by decide, by decide⟩
  show (df.map extendRow).map (·.toQRow) = df
  rw [List.map_map]
  have h : ((fun e : QRowExt => e.toQRow) ∘ extendRow) = (id : QRow → QRow) :=
    rfl
  rw [h, List.map_id]

/-- C1 (amended): a row whose reported turnout exceeds 95 is itemized
with its key and value in the validator's per-row report output; no
issue-list entry is produced for it (see the counterexample). -/
theorem c1_high_turnout_reported_only (df : List QRow) (r : QRow)
    (hr : r ∈ df) (hgt : gtCell r.Turnout_Percent 95 = true) :
    highLine r ∈ (quality_checks df).log := by
  show highLine r ∈ (low_turnout df).map lowLine
    ++ (high_turnout df).map highLine
    ++ ((mismatches df).take 5).map mismatchLine
  rw [List.mem_append, List.mem_append]
  refine Or.inl (Or.inr ?_)
  rw [List.mem_map]
  exact ⟨r, List.mem_filter.mpr ⟨hr, hgt⟩, rfl⟩

theorem mismatch_flag_eq (r : QRow) (h : wfRow r = true) :
    fgtC (extendRow r).Turnout_Difference (1/2) = mismatchSpec r := by
  unfold wfRow at h
  cases hrv : r.Registered_Voters with
  | none => rw [hrv] at h; simp at h
  | some rv =>
    rw [hrv] at h
    simp only [Bool.and_eq_true, decide_eq_true_eq, Option.isSome_iff_exists]
      at h
    obtain ⟨⟨hpos, ⟨vc, hvc⟩⟩, tp, htp⟩ := h
    have hrvne : ¬ rv = 0 := by positivity
    simp only [extendRow, calcTurnout, toF, hrv, hvc, htp, fdiv,
      if_neg hrvne, fmul100, round1F, fsub, fabs, fgtC, mismatchSpec]

theorem mismatches_map_eq (df : List QRow)
    (hwf : ∀ r ∈ df, wfRow r = true) :
    (mismatches df).map (·.toQRow) = df.filter mismatchSpec := by
  induction df with
  | nil => rfl
  | cons r t ih =>
    have hr := hwf r (by simp)
    have ht : ∀ x ∈ t, wfRow x = true := fun x hx => hwf x (by simp [hx])
    show ((extendRow r :: t.map extendRow).filter
      (fun e => fgtC e.Turnout_Difference (1/2))).map (·.toQRow) = _
    rw [List.filter_cons, List.filter_cons]
    rw [mismatch_flag_eq r hr]
    by_cases hm : mismatchSpec r = true
    · rw [if_pos (by simp [hm]), if_pos (by simp [hm])]
      rw [List.map_cons]
      exact congrArg (List.cons r) (ih ht)
    · rw [if_neg (by simpa using hm), if_neg (by simpa using hm)]
      exact ih ht

/-- C2 (amended): the recomputation check selects exactly the rows whose
recomputed turnout (votes divided by registrations, times 100, rounded
to one decimal) differs from the reported turnout by more than 0.5, and
itemizes the first five of them, with both the reported and the
recomputed value, in the validator's report output; no issue-list entry
is produced for them (see the counterexample). -/
theorem c2_mismatch_reported_only (df : List QRow)
    (hwf : ∀ r ∈ df, wfRow r = true) :
    (mismatches df).map (·.toQRow) = df.filter mismatchSpec
      ∧ ∀ e ∈ (mismatches df).take 5,
          mismatchLine e ∈ (quality_checks df).log := by
  refine ⟨mismatches_map_eq df hwf, ?_⟩
  intro e he
  show mismatchLine e ∈ (low_turnout df).map lowLine
    ++ (high_turnout df).map highLine
    ++ ((mismatches df).take 5).map mismatchLine
  rw [List.mem_append]
  refine Or.inr ?_
  rw [List.mem_map]
  exact ⟨e, he, rfl⟩

/-- C1 (counterexample): the table `tblC1` contains a row with turnout
above 95, yet the issue list returned by the quality validator is empty,
so such a row is not itemized in the issue list and the list is not
non-empty in its presence. -/
theorem c1_counterexample :
    (∃ r ∈ tblC1, gtCell r.Turnout_Percent 95 = true)
      ∧ (quality_checks tblC1).issues = [] := by
  constructor
  · exact ⟨highRow96, List.mem_cons_self _ _, by with_unfolding_all decide⟩
  · have hm : missingIssues tblC1 = [] := by with_unfolding_all decide
    have hc : cardIssues tblC1 = [] := by with_unfolding_all decide
    have hl : low_turnout tblC1 = [] := by with_unfolding_all decide
    have hd : dupIssues tblC1 = [] := by with_unfolding_all decide
    show missingIssues tblC1 ++ cardIssues tblC1
      ++ (low_turnout tblC1).map lowMsg ++ dupIssues tblC1 = []
    rw [hm, hc, hl, hd]
    rfl

/-- C1 (witness): instantiation of `c1_high_turnout_reported_only` at a
concrete table and row. -/
theorem c1_witness :
    ((highRow96 ∈ tblC1)
        ∧ gtCell highRow96.Turnout_Percent 95 = true)
      ∧ highLine highRow96 ∈ (quality_checks tblC1).log :=
  ⟨⟨List.mem_cons_self _ _, by with_unfolding_all decide⟩,
    c1_high_turnout_reported_only tblC1 _ (List.mem_cons_self _ _)
      (by with_unfolding_all decide)⟩

/-- C2 (counterexample): the table `tblC2` contains a row whose
recomputed turnout differs from the reported one by 5 percentage points
(more than the 0.5 tolerance), yet the issue list returned by the
quality validator is empty: mismatch rows are not flagged in the
returned issue list. -/
theorem c2_counterexample :
    (∃ r ∈ tblC2, mismatchSpec r = true)
      ∧ (quality_checks tblC2).issues = [] := by
  constructor
  · exact ⟨badRow75, List.mem_cons_self _ _, by with_unfolding_all decide⟩
  · have hm : missingIssues tblC2 = [] := by with_unfolding_all decide
    have hc : cardIssues tblC2 = [] := by with_unfolding_all decide
    have hl : low_turnout tblC2 = [] := by with_unfolding_all decide
    have hd : dupIssues tblC2 = [] := by with_unfolding_all decide
    show missingIssues tblC2 ++ cardIssues tblC2
      ++ (low_turnout tblC2).map lowMsg ++ dupIssues tblC2 = []
    rw [hm, hc, hl, hd]
    rfl

/-- C2 (witness): instantiation of `c2_mismatch_reported_only` at the
concrete table `tblC2`, whose rows are all well-formed. -/
theorem c2_witness :
    (∀ r ∈ tblC2, wfRow r = true)
      ∧ ((mismatches tblC2).map (·.toQRow) = tblC2.filter mismatchSpec
          ∧ ∀ e ∈ (mismatches tblC2).take 5,
              mismatchLine e ∈ (quality_checks tblC2).log) :=
  ⟨by with_unfolding_all decide,
    c2_mismatch_reported_only tblC2 (by with_unfolding_all decide)⟩

/-- C6 (witness): instantiation of `c6_cardinality_issue_unique` at the
66-county table for year 2020; the count of distinct counties there is
66. -/
theorem c6_witness :
    ((2020 ∈ sortedYears tblC6 ∧ nuniqueCounty tblC6 2020 ≠ 67)
        ∧ nuniqueCounty tblC6 2020 = 66)
      ∧ ((quality_checks tblC6).issues).count (cardMsg 2020 66) = 1 := by
  refine ⟨⟨⟨by with_unfolding_all decide, by with_unfolding_all decide⟩,
    by with_unfolding_all decide⟩, ?_⟩
  have h := c6_cardinality_issue_unique tblC6 2020
    (by with_unfolding_all decide) (by with_unfolding_all decide)
  have he : nuniqueCounty tblC6 2020 = 66 := by with_unfolding_all decide
  rw [he] at h
  exact h

/-- C3 (amended): a missing FIPS reference table is not a hard failure:
`add_fips_codes` notes it and returns the election table unchanged,
without FIPS codes, and the run continues downstream. -/
theorem c3_missing_fips_continues (es : List ERow) :
    add_fips_codes es none = FipsOutcome.withoutFips es := rfl

/-- C3 (counterexample): at a concrete input with the FIPS reference
table absent (None), the pipeline does not fail hard with the offending
source identified; it produces output without FIPS codes — the
standardized election table itself. -/
theorem c3_counterexample :
    add_fips_codes (standardize_county_names rawSample) none
      = FipsOutcome.withoutFips (standardize_county_names rawSample) := rfl

/-- C8: every election record survives key resolution (its election
fields reappear in at least one merged row), and every merged row's FIPS
value is either null or the FIPS of a reference entity whose name
exactly matches the row's county name — no fabricated keys. -/
theorem c8_key_resolution (es : List ERow) (fs : List FRow) :
    (∀ e ∈ es, ∃ q ∈ mergeFips es fs,
        q.County = e.County ∧ q.County_Original = e.County_Original
          ∧ q.Year = e.Year ∧ q.Election_Date = e.Election_Date
          ∧ q.Registered_Voters = e.Registered_Voters
          ∧ q.Votes_Cast = e.Votes_Cast
          ∧ q.Turnout_Percent = e.Turnout_Percent)
      ∧ (∀ q ∈ mergeFips es fs,
          q.FIPS = none
            ∨ ∃ f ∈ fs, q.County = some f.County_Name
                ∧ q.FIPS = some f.FIPS) := by
  constructor
  · intro e he
    cases h : fs.filter (fun f => e.County == some f.County_Name) with
    | nil =>
      refine ⟨mkQRow e none, ?_, rfl, rfl, rfl, rfl, rfl, rfl, rfl⟩
      rw [mergeFips]
      exact List.mem_flatMap.mpr ⟨e, he, by rw [h]; simp⟩
    | cons m ms =>
      refine ⟨mkQRow e (some m.FIPS), ?_, rfl, rfl, rfl, rfl, rfl, rfl, rfl⟩
      rw [mergeFips]
      refine List.mem_flatMap.mpr ⟨e, he, ?_⟩
      rw [h]
      exact List.mem_map.mpr ⟨m, by simp, rfl⟩
  · intro q hq
    rw [mergeFips] at hq
    obtain ⟨e, he, hblock⟩ := List.mem_flatMap.mp hq
    cases h : fs.filter (fun f => e.County == some f.County_Name) with
    | nil =>
      rw [h] at hblock
      simp at hblock
      subst hblock
      exact Or.inl rfl
    | cons m ms =>
      rw [h] at hblock
      obtain ⟨f, hf, hqf⟩ := List.mem_map.mp hblock
      subst hqf
      have hfs : f ∈ fs.filter (fun f => e.County == some f.County_Name) := by
        rw [h]; exact hf
      rw [List.mem_filter] at hfs
      refine Or.inr ⟨f, hfs.1, ?_, rfl⟩
      show e.County = some f.County_Name
      exact eq_of_beq hfs.2

/-- C8 (witness): instantiation of `c8_key_resolution` at a one-row
election table and one-row reference table. -/
theorem c8_witness :
    (eAlachua ∈ [eAlachua])
      ∧ (∃ q ∈ mergeFips [eAlachua] fsSample,
          q.County = eAlachua.County
            ∧ q.County_Original = eAlachua.County_Original
            ∧ q.Year = eAlachua.Year
            ∧ q.Election_Date = eAlachua.Election_Date
            ∧ q.Registered_Voters = eAlachua.Registered_Voters
            ∧ q.Votes_Cast = eAlachua.Votes_Cast
            ∧ q.Turnout_Percent = eAlachua.Turnout_Percent)
      ∧ (mkQRow eAlachua (some 12001) ∈ mergeFips [eAlachua] fsSample
          → (mkQRow eAlachua (some 12001)).FIPS = none
            ∨ ∃ f ∈ fsSample,
                (mkQRow eAlachua (some 12001)).County = some f.County_Name
                  ∧ (mkQRow eAlachua (some 12001)).FIPS = some f.FIPS) :=
  ⟨List.mem_cons_self _ _,
    (c8_key_resolution [eAlachua] fsSample).1 eAlachua (List.mem_cons_self _ _),
    fun hmem => (c8_key_resolution [eAlachua] fsSample).2 _ hmem⟩

/-- C10: the categorization maps null to null, 1-3 to Metropolitan, 4-7
to Micropolitan/Small Urban, and every other non-null code — including
values outside the documented 1-9 scale such as 0 or 10 — to Rural. -/
theorem c10_categorize :
    categorize none = none
      ∧ (∀ q : ℚ, (q = 1 ∨ q = 2 ∨ q = 3) →
          categorize (some q) = some "Metropolitan")
      ∧ (∀ q : ℚ, (q = 4 ∨ q = 5 ∨ q = 6 ∨ q = 7) →
          categorize (some q) = some "Micropolitan/Small Urban")
      ∧ (∀ q : ℚ, ¬(q = 1 ∨ q = 2 ∨ q = 3) →
          ¬(q = 4 ∨ q = 5 ∨ q = 6 ∨ q = 7) →
          categorize (some q) = some "Rural")
      ∧ categorize (some 0) = some "Rural"
      ∧ categorize (some 10) = some "Rural" := by
  refine ⟨rfl, ?_, ?_, ?_, ?_, ?_⟩
  · intro q hq
    simp [categorize, if_pos hq]
  · intro q hq
    by_cases h1 : q = 1 ∨ q = 2 ∨ q = 3
    · rcases h1 with h | h | h <;> rcases hq with h2 | h2 | h2 | h2 <;>
        rw [h] at h2 <;> norm_num at h2
    · simp [categorize, if_neg h1, if_pos hq]
  · intro q h1 h2
    simp [categorize, if_neg h1, if_neg h2]
  · with_unfolding_all decide
  · with_unfolding_all decide

/-- C10 (witness): instantiation of `c10_categorize` at codes 2 and
10. -/
theorem c10_witness :
    (((2 : ℚ) = 1 ∨ (2 : ℚ) = 2 ∨ (2 : ℚ) = 3)
        ∧ categorize (some 2) = some "Metropolitan")
      ∧ ((¬((10 : ℚ) = 1 ∨ (10 : ℚ) = 2 ∨ (10 : ℚ) = 3))
          ∧ (¬((10 : ℚ) = 4 ∨ (10 : ℚ) = 5 ∨ (10 : ℚ) = 6 ∨ (10 : ℚ) = 7))
          ∧ categorize (some 10) = some "Rural") :=
  ⟨⟨by norm_num, c10_categorize.2.1 2 (by norm_num)⟩,
    ⟨by norm_num, by norm_num,
      c10_categorize.2.2.2.1 10 (by norm_num) (by norm_num)⟩⟩

theorem leftMerge_length {α β : Type} (left : List α) (right : List β)
    (keyEq : α → β → Bool) :
    (leftMerge left right keyEq).length
      = (left.map fun a => max 1 (right.countP (keyEq a))).sum := by
  induction left with
  | nil => rfl
  | cons a t ih =>
    show ((match right.filter (keyEq a) with
      | [] => [(a, none)]
      | ms => ms.map fun b => (a, some b)) ++ leftMerge t right keyEq).length
      = _
    rw [List.length_append, ih]
    cases h : right.filter (keyEq a) with
    | nil =>
      have hc : right.countP (keyEq a) = 0 := by
        rw [List.countP_eq_length_filter, h]
        rfl
      simp [hc]
    | cons m ms =>
      have hc : right.countP (keyEq a) = (m :: ms).length := by
        rw [List.countP_eq_length_filter, h]
      simp only [List.map_cons, List.sum_cons, List.length_map, hc]
      have hmax : max 1 (m :: ms).length = (m :: ms).length := by
        simp [Nat.succ_le_iff]
      rw [hmax]
      simp

theorem sum_map_max_ge {α : Type} (l : List α) (f : α → Nat) :
    l.length ≤ (l.map fun a => max 1 (f a)).sum := by
  induction l with
  | nil => simp
  | cons a t ih =>
    simp only [List.length_cons, List.map_cons, List.sum_cons]
    have := Nat.le_max_left 1 (f a)
    omega

theorem leftMerge_length_ge {α β : Type} (left : List α) (right : List β)
    (keyEq : α → β → Bool) :
    left.length ≤ (leftMerge left right keyEq).length := by
  rw [leftMerge_length]
  exact sum_map_max_ge left _

theorem leftMerge_length_of_count_le_one {α β : Type} (left : List α)
    (right : List β) (keyEq : α → β → Bool)
    (h : ∀ a ∈ left, right.countP (keyEq a) ≤ 1) :
    (leftMerge left right keyEq).length = left.length := by
  rw [leftMerge_length]
  induction left with
  | nil => simp
  | cons a t ih =>
    simp only [List.map_cons, List.sum_cons, List.length_cons]
    rw [ih (fun x hx => h x (by simp [hx]))]
    have ha := h a (by simp)
    omega

theorem leftMerge_length_uniform {α β : Type} (left : List α)
    (right : List β) (keyEq : α → β → Bool) (m : Nat) (hm : 1 ≤ m)
    (h : ∀ a ∈ left, right.countP (keyEq a) = m) :
    (leftMerge left right keyEq).length = left.length * m := by
  rw [leftMerge_length]
  induction left with
  | nil => simp
  | cons a t ih =>
    simp only [List.map_cons, List.sum_cons, List.length_cons]
    rw [ih (fun x hx => h x (by simp [hx])), h a (by simp)]
    have : max 1 m = m := by omega
    rw [this]
    ring

theorem countP_le_one_of_nodup_keys {β : Type} (key : β → Nat)
    (right : List β) (h : (right.map key).Nodup) (k : Option Nat) :
    right.countP (fun b => k == some (key b)) ≤ 1 := by
  induction right with
  | nil => simp
  | cons b t ih =>
    rw [List.map_cons, List.nodup_cons] at h
    rw [List.countP_cons]
    by_cases hb : (k == some (key b)) = true
    · have hk : k = some (key b) := eq_of_beq hb
      have hzero : t.countP (fun x => k == some (key x)) = 0 := by
        rw [List.countP_eq_zero]
        intro x hx
        intro hcon
        have : key b = key x := by
          have := eq_of_beq hcon
          rw [hk] at this
          exact (Option.some.injEq .. ▸ this)
        exact h.1 (this ▸ List.mem_map_of_mem key hx)
      rw [hzero]
      simp [hb]
    · simpa [hb] using ih h.2

/-- C5: row counts under the integrator's sequential left joins. When
both enrichment keys are unique the output has exactly as many rows as
the election table; in general it never has fewer; and when every
election row matches the same number m of enrichment rows of a
non-unique key, the output has exactly m times as many rows. -/
theorem c5_integration_row_counts (elections : List QRow) :
    (∀ (c : List CRow) (b : List BRow),
        (c.map CRow.FIPS).Nodup → (b.map BRow.FIPS).Nodup →
        (integrate_all_data elections (some c) (some b)).length
          = elections.length)
      ∧ (∀ (census : Option (List CRow)) (bea : Option (List BRow)),
          elections.length
            ≤ (integrate_all_data elections census bea).length)
      ∧ (∀ (c : List CRow) (m : Nat), 1 ≤ m →
          (∀ r ∈ elections,
            c.countP (fun cr => r.FIPS == some cr.FIPS) = m) →
          (integrate_all_data elections (some c) none).length
            = elections.length * m) := by
  refine ⟨?_, ?_, ?_⟩
  · intro c b hc hb
    show (mergeBEA (mergeCensus elections (some c)) (some b)).length = _
    have h1 : (mergeCensus elections (some c)).length = elections.length := by
      exact leftMerge_length_of_count_le_one _ _ _
        (fun a _ => countP_le_one_of_nodup_keys CRow.FIPS c hc a.FIPS)
    have h2 := leftMerge_length_of_count_le_one
      (mergeCensus elections (some c)) b
      (fun p br => p.1.FIPS == some br.FIPS)
      (fun p _ => countP_le_one_of_nodup_keys BRow.FIPS b hb p.1.FIPS)
    show (leftMerge (mergeCensus elections (some c)) b
      (fun p br => p.1.FIPS == some br.FIPS)).length = _
    rw [h2, h1]
  · intro census bea
    have h1 : elections.length ≤ (mergeCensus elections census).length := by
      cases census with
      | none => simp [mergeCensus]
      | some c => exact leftMerge_length_ge _ _ _
    have h2 : (mergeCensus elections census).length
        ≤ (mergeBEA (mergeCensus elections census) bea).length := by
      cases bea with
      | none => simp [mergeBEA]
      | some b => exact leftMerge_length_ge _ _ _
    exact le_trans h1 h2
  · intro c m hm h
    show (mergeBEA (mergeCensus elections (some c)) none).length = _
    have h1 : (mergeCensus elections (some c)).length
        = elections.length * m :=
      leftMerge_length_uniform _ _ _ m hm h
    simp [mergeBEA, h1]

/-- C5 (witness): instantiation of `c5_integration_row_counts` at a
one-row election table and unique single-row enrichment tables. -/
theorem c5_witness :
    ((([cW].map CRow.FIPS).Nodup ∧ ([bW].map BRow.FIPS).Nodup)
        ∧ (integrate_all_data [qW] (some [cW]) (some [bW])).length
            = [qW].length)
      ∧ [qW].length ≤ (integrate_all_data [qW] none none).length :=
  ⟨⟨⟨by decide, by decide⟩,
      (c5_integration_row_counts [qW]).1 [cW] [bW] (by decide) (by decide)⟩,
    (c5_integration_row_counts [qW]).2.1 none none⟩

theorem leftMerge_fst_mem {α β : Type} (l : List α) (r : List β)
    (keyEq : α → β → Bool) :
    ∀ pr ∈ leftMerge l r keyEq, pr.1 ∈ l := by
  intro pr hpr
  obtain ⟨a, ha, hblock⟩ := List.mem_flatMap.mp hpr
  cases h : r.filter (keyEq a) with
  | nil =>
    rw [h] at hblock
    simp at hblock
    rw [hblock]
    exact ha
  | cons m ms =>
    rw [h] at hblock
    obtain ⟨b, _, hb⟩ := List.mem_map.mp hblock
    rw [← hb]
    exact ha

theorem mergeIncomeStep_fst (ye : List QRow)
    (inc : Option (List (Nat × Option ℚ))) :
    ∀ q ∈ mergeIncomeStep ye inc, q.1 ∈ ye := by
  intro q hq
  cases inc with
  | none =>
    obtain ⟨e, he, heq⟩ := List.mem_map.mp hq
    rw [← heq]
    exact he
  | some irows =>
    obtain ⟨pr, hpr, heq⟩ := List.mem_map.mp hq
    rw [← heq]
    exact leftMerge_fst_mem _ _ _ pr hpr

theorem mergeGdpStep_base (wi : List (QRow × Option ℚ))
    (g : Option (List (Nat × Option ℚ))) :
    ∀ t ∈ mergeGdpStep wi g,
      ∃ p ∈ wi, t.base = p.1 ∧ t.Per_Capita_Income = p.2 := by
  intro t ht
  cases g with
  | none =>
    obtain ⟨p, hp, heq⟩ := List.mem_map.mp ht
    exact ⟨p, hp, by rw [← heq], by rw [← heq]⟩
  | some grows =>
    obtain ⟨q, hq, heq⟩ := List.mem_map.mp ht
    exact ⟨q.1, leftMerge_fst_mem _ _ _ q hq, by rw [← heq], by rw [← heq]⟩

theorem leftMerge_singleton {α β : Type} (l : List α) (b : β)
    (keyEq : α → β → Bool) :
    leftMerge l [b] keyEq
      = l.map fun a => (a, if keyEq a b then some b else none) := by
  induction l with
  | nil => rfl
  | cons a t ih =>
    show (match [b].filter (keyEq a) with
      | [] => [(a, none)]
      | ms => ms.map fun b => (a, some b)) ++ leftMerge t [b] keyEq = _
    by_cases h : keyEq a b = true
    · have hf : [b].filter (keyEq a) = [b] := by simp [List.filter, h]
      rw [hf, List.map_cons, if_pos h]
      exact congrArg (List.cons (a, some b)) ih
    · have hf : [b].filter (keyEq a) = [] := by
        simp [List.filter, Bool.eq_false_iff.mpr h]
      rw [hf, List.map_cons, if_neg h]
      exact congrArg (List.cons (a, none)) ih

theorem mergeIncomeStep_singleton (ye : List QRow) (iv : Nat × Option ℚ) :
    mergeIncomeStep ye (some [iv])
      = ye.map fun e => (e, if e.FIPS == some iv.1 then iv.2 else none) := by
  show (leftMerge ye [iv] _).map _ = _
  rw [leftMerge_singleton, List.map_map]
  have h : ((fun p : QRow × Option (Nat × Option ℚ) =>
        (p.1, match p.2 with | none => none | some iv => iv.2))
      ∘ fun a => (a, if (a.FIPS == some iv.1) = true then some iv else none))
      = fun e : QRow => (e, if e.FIPS == some iv.1 then iv.2 else none) := by
    funext a
    by_cases hk : (a.FIPS == some iv.1) = true
    · simp [Function.comp, hk]
    · simp [Function.comp, hk]
  rw [h]

theorem chunk2024_eq (v22 v23 : Val) (elections : List QRow) :
    mergeGdpStep
      (mergeIncomeStep (elections.filter fun e => e.Year == some 2024)
        (processSource "Per capita personal income" "2023" (tIncC9 v22 v23)))
      (processSource "All industry total" "2023" tGdpC9)
    = (elections.filter fun e => e.Year == some 2024).map
        fun e => ⟨e, if e.FIPS == some 12001 then toNumeric v23 else none,
          none⟩ := by
  have hinc : processSource "Per capita personal income" "2023"
      (tIncC9 v22 v23) = some [(12001, toNumeric v23)] := rfl
  have hgdp : processSource "All industry total" "2023" tGdpC9 = none := rfl
  rw [hinc, hgdp, mergeIncomeStep_singleton]
  show (_ : List (QRow × Option ℚ)).map _ = _
  rw [List.map_map]
  rfl

/-- C9: with the year mapping sending election year 2024 to the source
label 2023 and a wide-form source table carrying both a 2022 and a 2023
column, every matched 2024 election record in the temporally matched
output receives the value of the 2023 column (coerced to a number), for
all cell values of the two columns — never the 2022 value. -/
theorem c9_temporal_alignment (v22 v23 : Val) (elections : List QRow)
    (t : TRow)
    (ht : t ∈ process_bea_temporal elections (tIncC9 v22 v23) tGdpC9)
    (hy : t.base.Year = some 2024) (hf : t.base.FIPS = some 12001) :
    t.Per_Capita_Income = toNumeric v23 := by
  obtain ⟨p, hp, hmem⟩ := List.mem_flatMap.mp ht
  have hyear : ∀ (ey : Nat) (ys : String), p = (ey, ys) → ey ≠ 2024 → False := by
    intro ey ys hpe hne
    rw [hpe] at hmem
    obtain ⟨pr, hpr, hbase, _⟩ := mergeGdpStep_base _ _ t hmem
    have h1 : pr.1 ∈ elections.filter fun e => e.Year == some ey :=
      mergeIncomeStep_fst _ _ pr hpr
    have h2 : pr.1.Year = some ey := eq_of_beq (List.mem_filter.mp h1).2
    rw [hbase, h2] at hy
    exact hne (Option.some.injEq .. ▸ hy)
  simp only [yearMapping, List.mem_cons, List.not_mem_nil, or_false] at hp
  rcases hp with hp | hp | hp | hp | hp
  · exact (hyear 2016 "2016" hp (by omega)).elim
  · exact (hyear 2018 "2018" hp (by omega)).elim
  · exact (hyear 2020 "2020" hp (by omega)).elim
  · exact (hyear 2022 "2022" hp (by omega)).elim
  · rw [hp] at hmem
    have hchunk := chunk2024_eq v22 v23 elections
    rw [hchunk] at hmem
    obtain ⟨e, he, heq⟩ := List.mem_map.mp hmem
    have hbase : t.base = e := by rw [← heq]
    have hfips : (e.FIPS == some 12001) = true := by
      rw [← hbase, hf]
      rfl
    rw [← heq]
    show (if e.FIPS == some 12001 then toNumeric v23 else none)
      = toNumeric v23
    rw [if_pos hfips]

/-- C9 (witness): instantiation of `c9_temporal_alignment` at concrete
cell values 111 (2022 column) and 222 (2023 column): the 2024 record
receives 222. -/
theorem c9_witness :
    ((TRow.mk qW2024 (some 222) none
          ∈ process_bea_temporal [qW2024] (tIncC9 (Val.vnum 111)
            (Val.vnum 222)) tGdpC9)
        ∧ (TRow.mk qW2024 (some 222) none).base.Year = some 2024
        ∧ (TRow.mk qW2024 (some 222) none).base.FIPS = some 12001)
      ∧ (TRow.mk qW2024 (some 222) none).Per_Capita_Income
          = toNumeric (Val.vnum 222) := by
  have hm : TRow.mk qW2024 (some 222) none
      ∈ process_bea_temporal [qW2024] (tIncC9 (Val.vnum 111) (Val.vnum 222))
        tGdpC9 := by
    apply List.mem_flatMap.mpr
    refine ⟨(2024, "2023"), by decide, ?_⟩
    show TRow.mk qW2024 (some 222) none ∈ mergeGdpStep
      (mergeIncomeStep ([qW2024].filter fun e => e.Year == some 2024)
        (processSource "Per capita personal income" "2023"
          (tIncC9 (Val.vnum 111) (Val.vnum 222))))
      (processSource "All industry total" "2023" tGdpC9)
    rw [chunk2024_eq]
    decide
  exact ⟨⟨hm, rfl, rfl⟩,
    c9_temporal_alignment (Val.vnum 111) (Val.vnum 222) [qW2024] _ hm rfl
      rfl⟩
